import Mathlib

/-
Verification development for the argument-parsing and command-resolution
core of the click repository (src/src/click/parser.py and
src/src/click/shell_completion.py).

Most function bodies in parser.py and shell_completion.py are stubs
(the body is literally "pass"); only "Option.__init__" and
"ParsingState.__init__" carry real code.  Definitions embedding those
two are translated from the source.  Every other definition below is
marked "Modelled from the spec:" and follows the natural-language
specification (spec.md sections 4.1, 4.2, 4.4) and the docstrings that
remain in the source files.
-/

set_option maxRecDepth 4000

/- ===================== Nargs Unpacker (spec section 4.2) ===================== -/

/-- Per-slot result of the nargs unpacker.  A slot of arity 1 yields a
scalar (missing scalars are padded with a null placeholder), a slot of
arity at least 2 yields a fixed tuple padded with null placeholders,
and the variadic slot yields an ordered sequence of arbitrary length. -/
inductive SlotValue where
  | scalar : Option String → SlotValue
  | tuple : List (Option String) → SlotValue
  | many : List String → SlotValue
deriving Repr, DecidableEq

/-- Take n tokens from the front of the list, padding with null
placeholders when the list runs out; also return the unconsumed rest. -/
def padTake : Nat → List String → List (Option String) × List String
  | 0, args => ([], args)
  | n + 1, [] => (List.replicate (n + 1) Option.none, [])
  | n + 1, a :: rest =>
    let r := padTake n rest
    (Option.some a :: r.1, r.2)

/-- Take the last n tokens of the list (in order), padding with null
placeholders at the front when the list runs out; also return the
unconsumed front part. -/
def padTakeBack (n : Nat) (args : List String) : List (Option String) × List String :=
  let keep := args.length - n
  (List.replicate (n - args.length) Option.none ++ (args.drop keep).map Option.some,
   args.take keep)

/-- Package the tokens collected for one fixed slot: arity 1 gives a
scalar, any other fixed arity gives a tuple. -/
def mkSlot (n : Nat) (vals : List (Option String)) : SlotValue :=
  if n = 1 then SlotValue.scalar (vals.headD Option.none) else SlotValue.tuple vals

/-- Fill fixed slots left-to-right from the front of the token list,
padding each under-supplied slot; returns the slot values in
declaration order and the unconsumed tokens. -/
def fillFront : List Nat → List String → List SlotValue × List String
  | [], args => ([], args)
  | n :: ns, args =>
    let r := padTake n args
    let more := fillFront ns r.2
    (mkSlot n r.1 :: more.1, more.2)

/-- Fill the fixed slots declared after the variadic slot: they are
satisfied from the back of the token list in reverse declaration
order; the returned slot values are in declaration order and the
returned rest is what the variadic slot absorbs. -/
def fillBack : List Nat → List String → List SlotValue × List String
  | [], args => ([], args)
  | n :: ns, args =>
    let later := fillBack ns args
    let r := padTakeBack n later.2
    (mkSlot n r.1 :: later.1, r.2)

/-- Split an arity-spec list at the first variadic entry (the source
docstring uses -1 as the sentinel for "eat up all the remainders").
Returns the fixed arities before and after it, or nothing when no
variadic slot exists.  The repository invariant (spec section 3) is
that at most one slot is variadic. -/
def splitVariadic : List Int → Option (List Nat × List Nat)
  | [] => Option.none
  | n :: ns =>
    if n < 0 then Option.some ([], ns.map Int.toNat)
    else
      match splitVariadic ns with
      | Option.none => Option.none
      | Option.some fb => Option.some (n.toNat :: fb.1, fb.2)

/-- Modelled from the spec: the body of parser._unpack_args is missing
(a pass stub); this follows spec section 4.2 and the surviving
docstring.  Given tokens and per-slot arity specs (-1 = variadic),
partition the tokens into per-slot groups: with no variadic slot,
consecutive fixed-size groups from the front with the excess returned
as remainder; with one variadic slot, slots before it fill from the
front, slots after it fill from the back in reverse declaration order,
and the variadic slot absorbs the rest (remainder empty).  Missing
items are filled with null placeholders, never an error. -/
def unpack_args (args : List String) (nargs_spec : List Int) :
    List SlotValue × List String :=
  match splitVariadic nargs_spec with
  | Option.none => fillFront (nargs_spec.map Int.toNat) args
  | Option.some fb =>
    let front := fillFront fb.1 args
    let back := fillBack fb.2 front.2
    (front.1 ++ SlotValue.many back.2 :: back.1, [])

/- ===================== split_arg_string ===================== -/

/-- Single-quote character. -/
def squote : Char := Char.ofNat 39

/-- Double-quote character. -/
def dquote : Char := Char.ofNat 34

/-- Backslash character. -/
def bslash : Char := Char.ofNat 92

/-- Whitespace characters recognised by the shell-like splitter. -/
def isSpaceChar (c : Char) : Bool :=
  c = ' ' || c = Char.ofNat 9 || c = Char.ofNat 10 || c = Char.ofNat 13

/-- Quoting mode of the shell-like splitter. -/
inductive QMode where
  | plain
  | single
  | double
deriving Repr, DecidableEq

/-- Emit the in-progress token, if any, onto the output list. -/
def flushTok (cur : Option (List Char)) (acc : List String) : List String :=
  match cur with
  | Option.none => acc
  | Option.some cs => acc ++ [String.mk cs]

/-- Continue the in-progress token, or start a fresh empty one. -/
def startTok (cur : Option (List Char)) : List Char :=
  match cur with
  | Option.none => []
  | Option.some cs => cs

/-- Character loop of the shell-like splitter: whitespace separates
tokens, single quotes protect everything, double quotes protect
everything but let a backslash escape a double quote or a backslash,
and a bare backslash escapes the next character.  Reaching the end of
input inside a quote or right after a backslash emits the partial
token as-is instead of failing. -/
def splitLoop : List Char → QMode → Option (List Char) → List String → List String
  | [], _, cur, acc => flushTok cur acc
  | c :: rest, QMode.plain, cur, acc =>
    if isSpaceChar c then
      splitLoop rest QMode.plain Option.none (flushTok cur acc)
    else if c = squote then
      splitLoop rest QMode.single (Option.some (startTok cur)) acc
    else if c = dquote then
      splitLoop rest QMode.double (Option.some (startTok cur)) acc
    else if c = bslash then
      match rest with
      | [] => flushTok cur acc
      | d :: rest2 => splitLoop rest2 QMode.plain (Option.some (startTok cur ++ [d])) acc
    else
      splitLoop rest QMode.plain (Option.some (startTok cur ++ [c])) acc
  | c :: rest, QMode.single, cur, acc =>
    if c = squote then splitLoop rest QMode.plain cur acc
    else splitLoop rest QMode.single (Option.some (startTok cur ++ [c])) acc
  | c :: rest, QMode.double, cur, acc =>
    if c = dquote then splitLoop rest QMode.plain cur acc
    else if c = bslash then
      match rest with
      | [] => flushTok cur acc
      | d :: rest2 =>
        if d = dquote || d = bslash then
          splitLoop rest2 QMode.double (Option.some (startTok cur ++ [d])) acc
        else
          splitLoop rest2 QMode.double (Option.some (startTok cur ++ [c, d])) acc
    else splitLoop rest QMode.double (Option.some (startTok cur ++ [c])) acc

/-- Modelled from the spec: the body of parser.split_arg_string is
missing (a pass stub); this follows its surviving docstring.  Split an
argument string as a shell would, but never fail: a missing closing
quote or an incomplete escape sequence yields the partial token as-is. -/
def split_arg_string (s : String) : List String :=
  splitLoop s.data QMode.plain Option.none []

/- ===================== parser.Option construction ===================== -/

/-- Modelled from the spec: parser.split_opt is referenced by the
implemented Option constructor but is absent from the repository.
Following spec section 3 (short forms carry a one-character prefix,
long forms a two-or-more-character prefix built by doubling the lead
character), it splits a flag string into its non-alphanumeric prefix
and the remaining name: an alphanumeric or absent first character
gives an empty prefix, a doubled lead character gives a two-character
prefix, anything else a one-character prefix. -/
def split_opt (opt : String) : String × String :=
  match opt.data with
  | [] => ("", "")
  | c :: rest =>
    if c.isAlphanum then ("", opt)
    else
      match rest with
      | [] => (String.mk [c], "")
      | d :: rest2 =>
        if d = c then (String.mk [c, d], String.mk rest2)
        else (String.mk [c], String.mk rest)

/-- Accumulated registration state of one parser Option under
construction: the short flags, long flags and prefix set built by the
loop in Option.__init__ (parser.py lines 69-81). -/
structure OptState where
  shortOpts : List String
  longOpts : List String
  prefixSet : List String
deriving Repr, DecidableEq

/-- Insert a string into a list treated as a set (no duplicates). -/
def insertStr (l : List String) (x : String) : List String :=
  if x ∈ l then l else l ++ [x]

/-- Take the first n characters of a string. -/
def strTake (s : String) (n : Nat) : String :=
  String.mk (s.data.take n)

/-- One iteration of the loop in Option.__init__ (parser.py lines
72-81, translated from the source): split the flag, reject an empty
prefix with a ValueError-style failure, record the first prefix
character, then classify the flag as short (one-character prefix and
one-character name) or long (anything else, adding the full prefix to
the prefix set). -/
def addOpt (st : OptState) (opt : String) : Except String OptState :=
  let pv := split_opt opt
  if pv.1 = "" then
    Except.error ("Invalid start character for option (" ++ opt ++ ")")
  else
    let st1 : OptState := { st with prefixSet := insertStr st.prefixSet (strTake pv.1 1) }
    if pv.1.data.length = 1 ∧ pv.2.data.length = 1 then
      Except.ok { st1 with shortOpts := st1.shortOpts ++ [opt] }
    else
      Except.ok { st1 with longOpts := st1.longOpts ++ [opt],
                           prefixSet := insertStr st1.prefixSet pv.1 }

/-- The flag-classification loop of Option.__init__ (parser.py lines
69-81, translated from the source), run over the whole list of
declared flag strings starting from empty registries. -/
def optionInit (opts : List String) : Except String OptState :=
  opts.foldlM addOpt { shortOpts := [], longOpts := [], prefixSet := [] }

/- ===================== Tokenizer/Matcher (spec section 4.1) ===================== -/

/-- Action kinds of a parser option (spec section 3): store overwrites,
store_const stores the constant payload, append pushes, append_const
pushes the constant, count increments. -/
inductive PAction where
  | store
  | storeConst
  | append
  | appendConst
  | count
deriving Repr, DecidableEq

/-- A single matched or constant value: null models the None stored
for a zero-arity option under the store action, bool a constant flag
payload, str one consumed token, tup a fixed tuple of tokens (with
null padding), nat a count. -/
inductive Item where
  | null : Item
  | bool : Bool → Item
  | str : String → Item
  | tup : List (Option String) → Item
  | nat : Nat → Item
deriving Repr, DecidableEq

/-- A stored destination value: either a single item or the ordered
accumulator built by the append actions. -/
inductive Value where
  | one : Item → Value
  | many : List Item → Value
deriving Repr, DecidableEq

/-- A registered parser option (parser.Option after construction):
declaring-object identity, flag lists, destination key, action kind,
arity and constant payload. -/
structure POption where
  id : Nat
  shortOpts : List String := []
  longOpts : List String := []
  prefixSet : List String := []
  dest : String
  action : PAction := PAction.store
  nargs : Nat := 1
  const : Item := Item.null
deriving Repr

/-- A registered positional argument slot (parser.Argument):
declaring-object identity, destination key and arity (-1 variadic). -/
structure PArgument where
  id : Nat
  dest : String
  nargs : Int := 1
deriving Repr

/-- Association-list read, mirroring a Python dict lookup. -/
def alistGet {α : Type} : List (String × α) → String → Option α
  | [], _ => Option.none
  | kv :: rest, key => if kv.1 = key then Option.some kv.2 else alistGet rest key

/-- Association-list write, mirroring a Python dict assignment:
overwriting an existing key keeps its position, a new key is appended
(insertion order preserved). -/
def alistSet {α : Type} : List (String × α) → String → α → List (String × α)
  | [], key, v => [(key, v)]
  | kv :: rest, key, v =>
    if kv.1 = key then (kv.1, v) :: rest else kv :: alistSet rest key v

/-- The mutable parse accumulator (parser.ParsingState, translated
from the source): matched option values by destination, leftover
positional tokens, the queue of not-yet-consumed tokens, and the
touch-order list of declaring-object identities. -/
structure ParsingState where
  opts : List (String × Value)
  largs : List String
  rargs : List String
  order : List Nat
deriving Repr, DecidableEq

/-- Failure conditions of the matcher (spec sections 4.1 and 7). -/
inductive ParseError where
  | noSuchOption : String → ParseError
  | ambiguousOption : String → List String → ParseError
  | badOptionUsage : String → ParseError
  | missingArguments : String → Nat → ParseError
deriving Repr, DecidableEq

/-- Whether a failure is the no-such-option condition (the only one
that falls through to short-option matching or unknown-option
tolerance). -/
def ParseError.isNoSuch : ParseError → Bool
  | ParseError.noSuchOption _ => true
  | _ => false

/-- The parser registries (OptionParser.__init__, translated from the
source, with the registries the stubbed add_option/add_argument
maintain modelled from their docstrings): flag-to-option maps for
short and long flags, the prefix set seeded with the dash prefixes,
declared positional slots, and the two behaviour switches. -/
structure Parser where
  allowInterspersedArgs : Bool := true
  ignoreUnknownOptions : Bool := false
  shortOpt : List (String × POption) := []
  longOpt : List (String × POption) := []
  optPrefixes : List String := ["-", "--"]
  args : List PArgument := []

/-- Modelled from the spec: the body of OptionParser.add_option is
missing (a pass stub); per its docstring it registers each of the
option flags in the matching registry and extends the prefix set. -/
def add_option (p : Parser) (o : POption) : Parser :=
  { p with
    shortOpt := o.shortOpts.foldl (fun m f => alistSet m f o) p.shortOpt,
    longOpt := o.longOpts.foldl (fun m f => alistSet m f o) p.longOpt,
    optPrefixes := o.prefixSet.foldl insertStr p.optPrefixes }

/-- Modelled from the spec: the body of OptionParser.add_argument is
missing (a pass stub); per its docstring it appends the positional
slot to the declared argument list. -/
def add_argument (p : Parser) (a : PArgument) : Parser :=
  { p with args := p.args ++ [a] }

/-- Split a character list at its first equals sign into the flag part
and the attached explicit value, if any (spec section 4.1 step 2). -/
def splitEqGo : List Char → List Char → String × Option String
  | [], seen => (String.mk seen.reverse, Option.none)
  | c :: rest, seen =>
    if c = '=' then (String.mk seen.reverse, Option.some (String.mk rest))
    else splitEqGo rest (c :: seen)

/-- Split a token at its first equals sign. -/
def splitEq (s : String) : String × Option String :=
  splitEqGo s.data []

/-- Fold one matched value into the destination of an append action:
push onto the existing accumulator list, or start a fresh one. -/
def pushVal (cur : Option Value) (v : Item) : Value :=
  match cur with
  | Option.some (Value.many xs) => Value.many (xs ++ [v])
  | _ => Value.many [v]

/-- Fold a count action into the destination: increment the existing
counter, or start at one. -/
def incrVal (cur : Option Value) : Value :=
  match cur with
  | Option.some (Value.one (Item.nat n)) => Value.one (Item.nat (n + 1))
  | _ => Value.one (Item.nat 1)

/-- Modelled from the spec: Option.process of the stubbed parser (spec
section 4.1 step 4): apply the action kind to fold the matched value
into the destination slot and append the declaring object to the
touch-order list. -/
def processAction (o : POption) (v : Item) (s : ParsingState) : ParsingState :=
  let opts :=
    match o.action with
    | PAction.store => alistSet s.opts o.dest (Value.one v)
    | PAction.storeConst => alistSet s.opts o.dest (Value.one o.const)
    | PAction.append => alistSet s.opts o.dest (pushVal (alistGet s.opts o.dest) v)
    | PAction.appendConst => alistSet s.opts o.dest (pushVal (alistGet s.opts o.dest) o.const)
    | PAction.count => alistSet s.opts o.dest (incrVal (alistGet s.opts o.dest))
  { s with opts := opts, order := s.order ++ [o.id] }

/-- Modelled from the spec: value consumption for a resolved option
(spec section 4.1 step 4).  An explicit attached value is prepended to
the queue; an option of arity N then pops N queue tokens (failing with
the requires-arguments condition when fewer remain, arity 1 giving a
scalar and larger arities a tuple), while a zero-arity option rejects
an attached value and otherwise stores a null value. -/
def applyOption (o : POption) (optName : String) (ev : Option String)
    (s : ParsingState) : ParsingState × Option ParseError :=
  if 0 < o.nargs then
    let rargs :=
      match ev with
      | Option.some v => v :: s.rargs
      | Option.none => s.rargs
    if rargs.length < o.nargs then
      ({ s with rargs := rargs }, Option.some (ParseError.missingArguments optName o.nargs))
    else
      let value :=
        if o.nargs = 1 then Item.str (rargs.headD "")
        else Item.tup ((rargs.take o.nargs).map Option.some)
      (processAction o value { s with rargs := rargs.drop o.nargs }, Option.none)
  else
    match ev with
    | Option.some _ => (s, Option.some (ParseError.badOptionUsage optName))
    | Option.none => (processAction o Item.null s, Option.none)

/-- Modelled from the spec: long-option resolution (spec section 4.1
step 2).  An exact registry match is taken as-is; otherwise the token
is tried as an unambiguous prefix of the registered long flags:
exactly one candidate is accepted in its place, several candidates
fail with the ambiguous-option condition listing them, and none fails
with the no-such-option condition. -/
def match_long_opt (p : Parser) (tok : String) (ev : Option String)
    (s : ParsingState) : ParsingState × Option ParseError :=
  match alistGet p.longOpt tok with
  | Option.some o => applyOption o tok ev s
  | Option.none =>
    match (p.longOpt.map Prod.fst).filter (fun w => tok.data.isPrefixOf w.data) with
    | [] => (s, Option.some (ParseError.noSuchOption tok))
    | [w] =>
      match alistGet p.longOpt w with
      | Option.some o => applyOption o w ev s
      | Option.none => (s, Option.some (ParseError.noSuchOption tok))
    | ws => (s, Option.some (ParseError.ambiguousOption tok ws))

/-- Modelled from the spec: the character walk over a short-option
cluster (spec section 4.1 step 3).  Each character is resolved against
the short registry; an unknown character fails (or is collected when
unknown options are tolerated); a zero-arity flag is processed and the
walk continues; a value-taking option pushes the remaining cluster
characters onto the queue as its inline value (stopping the walk) or,
when none remain, consumes subsequent queue tokens. -/
def shortLoop (p : Parser) (pfxCh : Char) :
    List Char → ParsingState → List Char → ParsingState × List Char × Option ParseError
  | [], s, unknown => (s, unknown, Option.none)
  | ch :: rest, s, unknown =>
    let optName := String.mk [pfxCh, ch]
    match alistGet p.shortOpt optName with
    | Option.none =>
      if p.ignoreUnknownOptions then shortLoop p pfxCh rest s (unknown ++ [ch])
      else (s, unknown, Option.some (ParseError.noSuchOption optName))
    | Option.some o =>
      if 0 < o.nargs then
        let s1 :=
          if rest.isEmpty then s
          else { s with rargs := String.mk rest :: s.rargs }
        match applyOption o optName Option.none s1 with
        | (s2, Option.some e) => (s2, unknown, Option.some e)
        | (s2, Option.none) => (s2, unknown, Option.none)
      else
        shortLoop p pfxCh rest (processAction o Item.null s) unknown

/-- Modelled from the spec: short-option cluster matching (spec
section 4.1 step 3).  Walk the cluster after the prefix character;
afterwards, any tolerated unknown characters are re-assembled behind
the prefix and pushed to the positional side. -/
def match_short_opt (p : Parser) (arg : String) (s : ParsingState) :
    ParsingState × Option ParseError :=
  match arg.data with
  | [] => (s, Option.none)
  | pfxCh :: cluster =>
    match shortLoop p pfxCh cluster s [] with
    | (s1, _, Option.some e) => (s1, Option.some e)
    | (s1, unknown, Option.none) =>
      if unknown.isEmpty then (s1, Option.none)
      else ({ s1 with largs := s1.largs ++ [String.mk (pfxCh :: unknown)] }, Option.none)

/-- Modelled from the spec: dispatch for one option-looking token
(spec section 4.1 steps 2-3).  Try it as a long option (splitting off
an attached equals-value); on the no-such-option condition, retry it
as a short cluster when its two-character head is not a registered
long prefix, else degrade it to a positional when unknown options are
tolerated, else fail. -/
def process_opts (p : Parser) (arg : String) (s : ParsingState) :
    ParsingState × Option ParseError :=
  let le := splitEq arg
  match match_long_opt p le.1 le.2 s with
  | (s1, Option.none) => (s1, Option.none)
  | (s1, Option.some e) =>
    if e.isNoSuch then
      if !(p.optPrefixes.contains (strTake arg 2)) then match_short_opt p arg s
      else if p.ignoreUnknownOptions then
        ({ s with largs := s.largs ++ [arg] }, Option.none)
      else (s1, Option.some e)
    else (s1, Option.some e)

/-- Modelled from the spec: the main matcher loop over the remaining
args queue (spec section 4.1 steps 1, 5, 6), fuelled by the token
count (each iteration consumes at least one queue token).  A lone
double dash stops option parsing leaving the rest positional; a token
whose first character is a registered prefix (and which is longer than
one character) is matched as an option; otherwise the token is
positional, either interspersed or, in POSIX-strict mode, stopping the
scan with the queue intact. -/
def process_args_for_options (p : Parser) : Nat → ParsingState → ParsingState × Option ParseError
  | 0, s => (s, Option.none)
  | fuel + 1, s =>
    match s.rargs with
    | [] => (s, Option.none)
    | arg :: rest =>
      let s1 := { s with rargs := rest }
      if arg = "--" then (s1, Option.none)
      else if p.optPrefixes.contains (strTake arg 1) && decide (1 < arg.data.length) then
        match process_opts p arg s1 with
        | (s2, Option.none) => process_args_for_options p fuel s2
        | (s2, Option.some e) => (s2, Option.some e)
      else if p.allowInterspersedArgs then
        process_args_for_options p fuel { s1 with largs := s1.largs ++ [arg] }
      else (s, Option.none)

/-- Convert one unpacked slot value into a stored value: a scalar
stays a scalar (missing becomes null), an all-missing tuple collapses
to null, and the variadic sequence becomes a tuple. -/
def slotToValue : SlotValue → Value
  | SlotValue.scalar o =>
    match o with
    | Option.none => Value.one Item.null
    | Option.some s => Value.one (Item.str s)
  | SlotValue.tuple xs =>
    if xs.all Option.isNone then Value.one Item.null else Value.one (Item.tup xs)
  | SlotValue.many xs => Value.one (Item.tup (xs.map Option.some))

/-- Modelled from the spec: positional distribution after the option
loop (spec section 2 control flow): the collected positionals (largs
then remaining queue) are fanned out across the declared argument
slots by the nargs unpacker, each slot stores its value and is
recorded in touch order, and the remainder becomes the leftover list. -/
def process_args_for_args (p : Parser) (s : ParsingState) : ParsingState :=
  let ur := unpack_args (s.largs ++ s.rargs) (p.args.map (fun a => a.nargs))
  let s1 := (p.args.zip ur.1).foldl
    (fun st av =>
      { st with opts := alistSet st.opts av.1.dest (slotToValue av.2),
                order := st.order ++ [av.1.id] }) s
  { s1 with largs := ur.2, rargs := [] }

/-- Modelled from the spec: the body of OptionParser.parse_args is
missing (a pass stub); this follows spec section 4.1 and the surviving
docstring.  Run the option loop over the queue, then distribute
positionals over declared argument slots, returning the option values,
leftover tokens and touch order.  A failure aborts with the error
unless resilient mode is on, in which case the state accumulated so
far is returned (the exception-swallowing path used by completion). -/
def parse_args (p : Parser) (resilient : Bool) (args : List String) :
    Except ParseError (List (String × Value) × List String × List Nat) :=
  let s0 : ParsingState := { opts := [], largs := [], rargs := args, order := [] }
  match process_args_for_options p (args.length + 1) s0 with
  | (s, Option.some e) =>
    if resilient then Except.ok (s.opts, s.largs, s.order) else Except.error e
  | (s, Option.none) =>
    let s1 := process_args_for_args p s
    Except.ok (s1.opts, s1.largs, s1.order)

/- ===================== Command Tree Walker (spec section 4.4) ===================== -/

/-- A command node: declaring identity, its parser (declared options,
arguments and switches), and its named subcommands. -/
inductive Cmd where
  | node : Nat → Parser → List (String × Cmd) → Cmd

/-- Identity of a command node. -/
def Cmd.cid : Cmd → Nat
  | Cmd.node i _ _ => i

/-- Parser of a command node. -/
def Cmd.parser : Cmd → Parser
  | Cmd.node _ p _ => p

/-- Subcommand table of a command node. -/
def Cmd.subs : Cmd → List (String × Cmd)
  | Cmd.node _ _ s => s

/-- Resolve a subcommand name against a subcommand table. -/
def findChild : List (String × Cmd) → String → Option Cmd
  | [], _ => Option.none
  | nc :: rest, name =>
    if nc.1 = name then Option.some nc.2 else findChild rest name

/-- Modelled from the spec: the walk of shell_completion._resolve_context
(spec section 4.4), whose body is missing (a pass stub), fuelled by the
token count (each descent hands a strictly shorter list to the child).
At each node the matcher runs in best-effort mode over the typed
tokens; a parse failure truncates the walk at the current node, as
does an empty leftover list or a first leftover that names no child;
otherwise the walk descends into the named child with the remaining
leftovers.  resolveStep decides one descent: the first leftover is
resolved against the subcommand table. -/
def resolveStep (c : Cmd) (lo : List String) : Option (Cmd × List String) :=
  match lo with
  | [] => Option.none
  | name :: rest =>
    match findChild c.subs name with
    | Option.none => Option.none
    | Option.some child => Option.some (child, rest)

/-- Modelled from the spec: the walk loop of
shell_completion._resolve_context continued (see resolve_context). -/
def resolveGo : Nat → Cmd → List String → Cmd
  | 0, c, _ => c
  | fuel + 1, c, args =>
    match parse_args c.parser false args with
    | Except.error _ => c
    | Except.ok r =>
      match resolveStep c r.2.1 with
      | Option.none => c
      | Option.some cr => resolveGo fuel cr.1 cr.2

/-- Modelled from the spec: shell_completion._resolve_context, the
context-resolution walk used by shell completion, producing the
deepest successfully resolved command node. -/
def resolve_context (root : Cmd) (args : List String) : Cmd :=
  resolveGo (args.length + 1) root args

/-- A node is reachable from another by descending registered
subcommand edges (the resolved-context relation). -/
inductive Reachable : Cmd → Cmd → Prop
  | refl (c : Cmd) : Reachable c c
  | step (c d : Cmd) (name : String) (child : Cmd) :
      (name, child) ∈ c.subs → Reachable child d → Reachable c d

/- ===================== Concrete fixtures ===================== -/

/-- Short flag -v of arity 0 (a constant-storing flag). -/
def optV : POption :=
  { id := 1, shortOpts := ["-v"], prefixSet := ["-"], dest := "v",
    action := PAction.storeConst, nargs := 0, const := Item.bool true }

/-- Short option -o of arity 1. -/
def optO : POption :=
  { id := 2, shortOpts := ["-o"], prefixSet := ["-"], dest := "o",
    action := PAction.store, nargs := 1 }

/-- Parser registering -v (arity 0) and -o (arity 1). -/
def pVO : Parser := add_option (add_option {} optV) optO

/-- Long flag --verbose of arity 0. -/
def optVerbose : POption :=
  { id := 3, longOpts := ["--verbose"], prefixSet := ["-", "--"], dest := "verbose",
    action := PAction.storeConst, nargs := 0, const := Item.bool true }

/-- Short option -p of arity 1 (used next to --verbose). -/
def optP : POption :=
  { id := 4, shortOpts := ["-p"], prefixSet := ["-"], dest := "p",
    action := PAction.store, nargs := 1 }

/-- Parser registering --verbose (arity 0) and -p (arity 1). -/
def pPrefix : Parser := add_option (add_option {} optVerbose) optP

/-- Long flag --version of arity 0. -/
def optVersion : POption :=
  { id := 5, longOpts := ["--version"], prefixSet := ["-", "--"], dest := "version",
    action := PAction.storeConst, nargs := 0, const := Item.bool true }

/-- Parser registering --verbose and --version, which share the proper
prefix --ver. -/
def pAmb : Parser := add_option (add_option {} optVerbose) optVersion

/-- Long option --x of arity 1 with the append action. -/
def optX : POption :=
  { id := 7, longOpts := ["--x"], prefixSet := ["-", "--"], dest := "x",
    action := PAction.append, nargs := 1 }

/-- Parser registering --x with the append action. -/
def pX : Parser := add_option {} optX

/-- A leaf command with no declared options and no subcommands. -/
def leafCmd : Cmd := Cmd.node 101 {} []

/-- A root command whose parser knows no options and which has one
subcommand named sub. -/
def rootCmd : Cmd := Cmd.node 100 {} [("sub", leafCmd)]

/- ===================== Supporting lemmas ===================== -/

/-- An element inserted into a set-list is a member of the result. -/
theorem mem_insertStr_self (l : List String) (x : String) : x ∈ insertStr l x := by
  unfold insertStr
  split
  · assumption
  · simp

/-- A key occurring among the keys of an association list has a value. -/
theorem alistGet_mem_keys {α : Type} :
    ∀ (l : List (String × α)) (k : String),
      k ∈ l.map Prod.fst → ∃ o, alistGet l k = Option.some o := by
  intro l
  induction l with
  | nil => intro k h; simp at h
  | cons hd tl ih =>
    intro k h
    by_cases he : hd.1 = k
    · exact ⟨hd.2, by simp [alistGet, he]⟩
    · have hm : k ∈ tl.map Prod.fst := by
        rw [List.map_cons, List.mem_cons] at h
        rcases h with h1 | h1
        · exact absurd h1.symm he
        · exact h1
      obtain ⟨o, ho⟩ := ih k hm
      exact ⟨o, by simp [alistGet, he, ho]⟩

/-- A successful child lookup is a membership in the subcommand table. -/
theorem findChild_mem :
    ∀ (l : List (String × Cmd)) (name : String) (c : Cmd),
      findChild l name = Option.some c → (name, c) ∈ l := by
  intro l
  induction l with
  | nil => intro name c h; simp [findChild] at h
  | cons hd tl ih =>
    intro name c h
    unfold findChild at h
    by_cases he : hd.1 = name
    · rw [if_pos he] at h
      injection h with h2
      subst he
      rw [← h2, Prod.mk.eta]
      exact List.mem_cons_self hd tl
    · rw [if_neg he] at h
      exact List.mem_cons_of_mem hd (ih name c h)

/-- A successful descent step names a registered child of the node. -/
theorem resolveStep_mem (c : Cmd) (lo : List String) (cr : Cmd × List String)
    (h : resolveStep c lo = Option.some cr) : ∃ name, (name, cr.1) ∈ c.subs := by
  cases lo with
  | nil => simp [resolveStep] at h
  | cons name rest =>
    simp only [resolveStep] at h
    cases hf : findChild c.subs name with
    | none => rw [hf] at h; simp at h
    | some child =>
      rw [hf] at h
      injection h with h2
      exact ⟨name, by rw [← h2]; exact findChild_mem _ _ _ hf⟩

/-- The walker only ever returns a node reached from its start by
successful subcommand resolutions. -/
theorem resolveGo_reachable :
    ∀ (fuel : Nat) (c : Cmd) (args : List String), Reachable c (resolveGo fuel c args) := by
  intro fuel
  induction fuel with
  | zero => intro c args; exact Reachable.refl c
  | succ n ih =>
    intro c args
    unfold resolveGo
    cases hp : parse_args c.parser false args with
    | error e => exact Reachable.refl c
    | ok r =>
      show Reachable c
        (match resolveStep c r.2.1 with
         | Option.none => c
         | Option.some cr => resolveGo n cr.1 cr.2)
      cases hs : resolveStep c r.2.1 with
      | none => exact Reachable.refl c
      | some cr =>
        obtain ⟨name, hmem⟩ := resolveStep_mem c r.2.1 cr hs
        exact Reachable.step c _ name cr.1 hmem (ih cr.1 cr.2)

/-- When the front of the queue is the double-dash terminator, the
option loop stops at once: the terminator is consumed, everything
after it stays in the queue (to become positional leftovers), and no
further matching touches the state. -/
theorem dashdash_step (p : Parser) (fuel : Nat) (s : ParsingState) (rest : List String)
    (h : s.rargs = "--" :: rest) :
    process_args_for_options p (fuel + 1) s = ({ s with rargs := rest }, Option.none) := by
  simp [process_args_for_options, h]

/-- A flag string with no leading character or an alphanumeric leading
character splits to an empty prefix. -/
theorem split_opt_empty_of_alnum (opt : String)
    (h : (opt.data.head?.all Char.isAlphanum) = true) : (split_opt opt).1 = "" := by
  cases hd : opt.data with
  | nil => simp [split_opt, hd]
  | cons c rest =>
    have hc : c.isAlphanum = true := by
      rw [hd] at h
      simpa using h
    simp [split_opt, hd, hc]

/-- Registering a flag with no non-alphanumeric lead character fails
with the ValueError of Option.__init__ (parser.py line 75). -/
theorem addOpt_error_of_alnum (st : OptState) (opt : String)
    (h : (opt.data.head?.all Char.isAlphanum) = true) :
    addOpt st opt = Except.error ("Invalid start character for option (" ++ opt ++ ")") := by
  simp [addOpt, split_opt_empty_of_alnum opt h]

/-- The construction loop of Option.__init__ fails whenever any
declared flag has no non-alphanumeric lead character. -/
theorem foldlM_addOpt_error :
    ∀ (opts : List String) (st : OptState) (opt : String), opt ∈ opts →
      (opt.data.head?.all Char.isAlphanum) = true →
      ∃ e, List.foldlM addOpt st opts = Except.error e := by
  intro opts
  induction opts with
  | nil => intro st opt hm; exact absurd hm (by simp)
  | cons hd tl ih =>
    intro st opt hm h
    rw [List.foldlM_cons]
    cases he : addOpt st hd with
    | error e => exact ⟨e, rfl⟩
    | ok st1 =>
      rcases List.mem_cons.mp hm with h1 | h1
      · rw [← h1] at he
        rw [addOpt_error_of_alnum st opt h] at he
        simp at he
      · obtain ⟨e, he2⟩ := ih st1 opt h1 h
        exact ⟨e, by show List.foldlM addOpt st1 tl = Except.error e; exact he2⟩

/-- A list holding two distinct members has at least two entries, so
it splits as a double cons. -/
theorem mem_two_cons_cons {α : Type} (l : List α) (x y : α)
    (hx : x ∈ l) (hy : y ∈ l) (hne : x ≠ y) : ∃ a b t, l = a :: b :: t := by
  cases l with
  | nil => cases hx
  | cons a t =>
    cases t with
    | nil =>
      rw [List.mem_singleton] at hx hy
      exact absurd (hx.trans hy.symm) hne
    | cons b t2 => exact ⟨a, b, t2, rfl⟩

/- ===================== Claim theorems ===================== -/

/-- C1: the nargs unpacker on tokens [a,b,c,d,e] with arity specs
[1, VARIADIC, 1] yields the per-slot values ("a", [b,c,d], "e") with
an empty remainder: the fixed slot before the variadic slot fills from
the front, the fixed slot after it fills from the back, the variadic
slot absorbs the rest, and the results are in declaration order. -/
theorem unpack_one_variadic_middle :
    unpack_args ["a", "b", "c", "d", "e"] [1, -1, 1] =
      ([SlotValue.scalar (Option.some "a"),
        SlotValue.many ["b", "c", "d"],
        SlotValue.scalar (Option.some "e")], []) := by decide

/-- C6: the nargs unpacker on the single token [a] with arity specs
[2, VARIADIC] pads the under-supplied first slot to (a, null) and
leaves the variadic slot empty; being a total function it raises
nothing, matching the claim that under-supply is signalled only at a
higher level. -/
theorem unpack_pads_missing_fixed_slot :
    unpack_args ["a"] [2, -1] =
      ([SlotValue.tuple [Option.some "a", Option.none], SlotValue.many []], []) := by decide

/-- C2: with -v registered at arity 0 and -o at arity 1, the single
token -vofile sets the destination of -v and stores the inline cluster
remainder "file" as the value of -o; and with the split tokens -vo and
file, -o instead consumes its value from the following queue token,
yielding the identical result. -/
theorem short_cluster_inline_and_queue_value :
    parse_args pVO false ["-vofile"] =
      Except.ok ([("v", Value.one (Item.bool true)), ("o", Value.one (Item.str "file"))],
        [], [1, 2])
    ∧ parse_args pVO false ["-vo", "file"] =
      Except.ok ([("v", Value.one (Item.bool true)), ("o", Value.one (Item.str "file"))],
        [], [1, 2]) := ⟨rfl, rfl⟩

/-- C5: for every parser in which two distinct long flags are
registered and a token is a prefix of both without being itself a
registered flag, long-option resolution of the token fails with the
ambiguous-option condition whose payload contains both full flag
strings, leaving the state untouched (no silent resolution); and
whenever such a token is examined in option position (it is not the
double-dash terminator, its head character is a registered prefix, it
is longer than one character and carries no attached equals-value),
the whole parse of that token fails with the same ambiguous-option
error. -/
theorem ambiguous_long_prefix_error (p : Parser) (tok w1 w2 : String)
    (ev : Option String) (s : ParsingState)
    (hne : w1 ≠ w2)
    (hw1 : w1 ∈ p.longOpt.map Prod.fst)
    (hw2 : w2 ∈ p.longOpt.map Prod.fst)
    (hp1 : tok.data.isPrefixOf w1.data = true)
    (hp2 : tok.data.isPrefixOf w2.data = true)
    (hreg : alistGet p.longOpt tok = Option.none) :
    (∃ cands, match_long_opt p tok ev s =
        (s, Option.some (ParseError.ambiguousOption tok cands))
      ∧ w1 ∈ cands ∧ w2 ∈ cands)
    ∧ (tok ≠ "--" → p.optPrefixes.contains (strTake tok 1) = true →
        1 < tok.data.length → splitEq tok = (tok, Option.none) →
        ∃ cands, parse_args p false [tok] =
          Except.error (ParseError.ambiguousOption tok cands)
        ∧ w1 ∈ cands ∧ w2 ∈ cands) := by
  have hm1 : w1 ∈ (p.longOpt.map Prod.fst).filter (fun x => tok.data.isPrefixOf x.data) :=
    List.mem_filter.mpr ⟨hw1, hp1⟩
  have hm2 : w2 ∈ (p.longOpt.map Prod.fst).filter (fun x => tok.data.isPrefixOf x.data) :=
    List.mem_filter.mpr ⟨hw2, hp2⟩
  obtain ⟨a, b, t, hL⟩ := mem_two_cons_cons _ w1 w2 hm1 hm2 hne
  rw [hL] at hm1 hm2
  have key : ∀ (ev' : Option String) (s' : ParsingState),
      match_long_opt p tok ev' s' =
        (s', Option.some (ParseError.ambiguousOption tok (a :: b :: t))) := by
    intro ev' s'
    simp [match_long_opt, hreg, hL]
  constructor
  · exact ⟨a :: b :: t, key ev s, hm1, hm2⟩
  · intro h3 h4 h5 h6
    refine ⟨a :: b :: t, ?_, hm1, hm2⟩
    have h4m : strTake tok 1 ∈ p.optPrefixes := by simpa using h4
    have h5m : 1 < tok.length := h5
    simp [parse_args, process_args_for_options, h3, h4, h5, process_opts, h6, key,
      ParseError.isNoSuch, h4m, h5m]

/-- C5 witness: the general ambiguity theorem at the parser
registering --verbose and --version with the shared prefix token
--ver, at both the resolution level and the whole-parse level. -/
theorem ambiguous_long_prefix_error_witness :
    (∃ cands, match_long_opt pAmb "--ver" Option.none
        { opts := [], largs := [], rargs := [], order := [] } =
      ({ opts := [], largs := [], rargs := [], order := [] },
        Option.some (ParseError.ambiguousOption "--ver" cands))
      ∧ "--verbose" ∈ cands ∧ "--version" ∈ cands)
    ∧ (∃ cands, parse_args pAmb false ["--ver"] =
        Except.error (ParseError.ambiguousOption "--ver" cands)
      ∧ "--verbose" ∈ cands ∧ "--version" ∈ cands) := by
  have h := ambiguous_long_prefix_error pAmb "--ver" "--verbose" "--version" Option.none
    { opts := [], largs := [], rargs := [], order := [] }
    (by decide) (by decide) (by decide) (by decide) (by decide) rfl
  exact ⟨h.1, h.2 (by decide) rfl (by decide) rfl⟩

/-- C7: with --x registered under the append action, the tokens
--x 1 --x 2 --x 3 accumulate the destination value [1, 2, 3] in
encounter order, and the touch-order list holds the declaring object
of --x exactly three times, once per match, in encounter order. -/
theorem append_action_order :
    parse_args pX false ["--x", "1", "--x", "2", "--x", "3"] =
      Except.ok ([("x", Value.many [Item.str "1", Item.str "2", Item.str "3"])],
        [], [7, 7, 7]) := rfl

/-- C9: split_arg_string returns a token list for incomplete input
rather than failing (it is a total function with no failure branch): a
missing closing quote yields the quoted text as-is as a partial token,
and a trailing incomplete backslash escape is ignored. -/
theorem split_arg_string_incomplete_inputs :
    split_arg_string ("example " ++ String.mk [squote] ++ "my file") = ["example", "my file"]
    ∧ split_arg_string ("example my" ++ String.mk [bslash]) = ["example", "my"] :=
  ⟨by decide, by decide⟩

/-- C3 counterexample: with -o of arity 1 registered, parsing
[-o, --, -v] consumes the first -- as the value of -o, after which the
later token -v is matched as an option (its declaring object enters
the touch order) and the leftover list comes out empty instead of
holding [-v]; so a token list containing -- need not have everything
after the first -- treated as positional. -/
theorem dashdash_value_consumption_cex :
    parse_args pVO false ["-o", "--", "-v"] =
      Except.ok ([("o", Value.one (Item.str "--")), ("v", Value.one (Item.bool true))],
        [], [2, 1])
    ∧ ([] : List String) ≠ ["-v"] := ⟨rfl, by decide⟩

/-- C3 (amended): when the first -- is examined in option position at
the front of the queue (rather than being consumed as the value of a
preceding option), the option loop consumes it and stops at once with
the state otherwise untouched, so every remaining token becomes a
positional leftover and no option matching occurs after it; in
particular a token list starting with -- parses to no option values,
all later tokens as leftovers, and an empty touch order. -/
theorem dashdash_front_terminates (p : Parser) (fuel : Nat) (s : ParsingState)
    (rest : List String) (h : s.rargs = "--" :: rest) :
    process_args_for_options p (fuel + 1) s = ({ s with rargs := rest }, Option.none)
    ∧ (p.args = [] → parse_args p false ("--" :: rest) = Except.ok ([], rest, [])) := by
  constructor
  · exact dashdash_step p fuel s rest h
  · intro hargs
    have hstep := dashdash_step p (rest.length + 1)
      { opts := [], largs := [], rargs := "--" :: rest, order := [] } rest rfl
    simp only [parse_args, List.length_cons] at *
    rw [hstep]
    simp [process_args_for_args, hargs, unpack_args, splitVariadic, fillFront]

/-- C3 witness: the amended double-dash behaviour at a concrete state
and token list. -/
theorem dashdash_front_terminates_witness :
    process_args_for_options pVO 1
        { opts := [], largs := [], rargs := ["--", "-v"], order := [] } =
      ({ opts := [], largs := [], rargs := ["-v"], order := [] }, Option.none)
    ∧ parse_args pVO false ["--", "-v"] = Except.ok ([], ["-v"], []) := by
  have h := dashdash_front_terminates pVO 0
    { opts := [], largs := [], rargs := ["--", "-v"], order := [] } ["-v"] rfl
  exact ⟨h.1, h.2 rfl⟩

/-- C4 counterexample: --verb is an unambiguous proper prefix of the
registered --verbose (and itself no registered flag), yet the token
lists [-p, --verb] and [-p, --verbose] parse to different results,
because the prefix token sits in value position and is consumed
verbatim by -p; so prefix-for-full substitution does not preserve the
parse result for every token list containing the prefix. -/
theorem unique_long_prefix_whole_list_cex :
    parse_args pPrefix false ["-p", "--verb"] =
      Except.ok ([("p", Value.one (Item.str "--verb"))], [], [4])
    ∧ parse_args pPrefix false ["-p", "--verbose"] =
      Except.ok ([("p", Value.one (Item.str "--verbose"))], [], [4])
    ∧ (([("p", Value.one (Item.str "--verb"))], ([] : List String), ([4] : List Nat)) ≠
        ([("p", Value.one (Item.str "--verbose"))], ([] : List String), ([4] : List Nat))) :=
  ⟨rfl, rfl, by decide⟩

/-- C4 (amended): for every registered long option and every prefix of
its flag string that is not itself registered and that no other
registered long flag starts with, resolving that prefix in option
position has exactly the same effect on the parse state as the full
flag string: long-option matching on the two tokens is equal, so the
same option values, leftovers and touch order arise whenever the token
is examined as an option rather than consumed as a value. -/
theorem unique_long_prefix_resolution (p : Parser) (tok w : String) (ev : Option String)
    (s : ParsingState)
    (h1 : alistGet p.longOpt tok = Option.none)
    (h2 : (p.longOpt.map Prod.fst).filter (fun x => tok.data.isPrefixOf x.data) = [w]) :
    match_long_opt p tok ev s = match_long_opt p w ev s := by
  have hw : w ∈ p.longOpt.map Prod.fst := by
    have hmem : w ∈ (p.longOpt.map Prod.fst).filter (fun x => tok.data.isPrefixOf x.data) := by
      rw [h2]
      exact List.mem_singleton.mpr rfl
    exact List.mem_of_mem_filter hmem
  obtain ⟨o, ho⟩ := alistGet_mem_keys p.longOpt w hw
  simp [match_long_opt, h1, h2, ho]

/-- C4 witness: --verb resolves exactly as --verbose against the
parser registering --verbose. -/
theorem unique_long_prefix_resolution_witness :
    match_long_opt pPrefix "--verb" Option.none
        { opts := [], largs := [], rargs := [], order := [] } =
      match_long_opt pPrefix "--verbose" Option.none
        { opts := [], largs := [], rargs := [], order := [] } :=
  unique_long_prefix_resolution pPrefix "--verb" "--verbose" Option.none
    { opts := [], largs := [], rargs := [], order := [] } rfl rfl

/-- C8: the context-resolution walk used by shell completion is a
total function whose result is always a command node reached from the
root by successful subcommand resolutions (it surfaces no error
value), and whenever the strict matcher fails on the typed tokens at
the current node the walk truncates there, returning that node as the
last successfully resolved one. -/
theorem resolve_context_graceful (root : Cmd) (args : List String) :
    Reachable root (resolve_context root args)
    ∧ (∀ e, parse_args root.parser false args = Except.error e →
        resolve_context root args = root) := by
  constructor
  · exact resolveGo_reachable (args.length + 1) root args
  · intro e he
    unfold resolve_context
    simp [resolveGo, he]

/-- C8 witness: a malformed flag at the root makes the strict matcher
fail, yet the walker returns the root context without an error. -/
theorem resolve_context_graceful_witness :
    Reachable rootCmd (resolve_context rootCmd ["--nope"])
    ∧ resolve_context rootCmd ["--nope"] = rootCmd := by
  have h := resolve_context_graceful rootCmd ["--nope"]
  exact ⟨h.1, h.2 (ParseError.noSuchOption "--nope") rfl⟩

/-- C10: constructing a parser Option rejects, with the ValueError of
Option.__init__, any flag string whose first character is missing or
alphanumeric (no non-alphanumeric lead character), at construction
time; and every accepted flag whose split gives a one-character prefix
and a one-character name registers as a short option, while any other
accepted flag registers as a long option with its full prefix added to
the prefix set. -/
theorem option_init_classification (opt : String) (opts : List String) (st st' : OptState) :
    ((opt.data.head?.all Char.isAlphanum) = true → opt ∈ opts →
       ∃ e, optionInit opts = Except.error e)
    ∧ (addOpt st opt = Except.ok st' →
       (((split_opt opt).1.data.length = 1 ∧ (split_opt opt).2.data.length = 1) →
          st'.shortOpts = st.shortOpts ++ [opt] ∧ st'.longOpts = st.longOpts)
       ∧ (¬((split_opt opt).1.data.length = 1 ∧ (split_opt opt).2.data.length = 1) →
          st'.longOpts = st.longOpts ++ [opt] ∧ (split_opt opt).1 ∈ st'.prefixSet)) := by
  constructor
  · intro h hm
    exact foldlM_addOpt_error opts _ opt hm h
  · intro hok
    unfold addOpt at hok
    by_cases h0 : (split_opt opt).1 = ""
    · rw [if_pos h0] at hok
      cases hok
    · rw [if_neg h0] at hok
      by_cases h1 : (split_opt opt).1.data.length = 1 ∧ (split_opt opt).2.data.length = 1
      · rw [if_pos h1] at hok
        injection hok with h2
        constructor
        · intro _
          rw [← h2]
          exact ⟨rfl, rfl⟩
        · intro hn
          exact absurd h1 hn
      · rw [if_neg h1] at hok
        injection hok with h2
        constructor
        · intro hc
          exact absurd hc h1
        · intro _
          rw [← h2]
          exact ⟨rfl, mem_insertStr_self _ _⟩

/-- C10 witness: the flag 1v is rejected at construction, -v registers
as a short option, and --verbose registers as a long option. -/
theorem option_init_classification_witness :
    (∃ e, optionInit ["1v"] = Except.error e)
    ∧ (({ shortOpts := ["-v"], longOpts := [], prefixSet := ["-"] } : OptState).shortOpts
        = ([] : List String) ++ ["-v"])
    ∧ (({ shortOpts := [], longOpts := ["--verbose"], prefixSet := ["-", "--"] } : OptState).longOpts
        = ([] : List String) ++ ["--verbose"]) := by
  refine ⟨?_, ?_, ?_⟩
  · exact (option_init_classification "1v" ["1v"]
      ⟨[], [], []⟩ ⟨[], [], []⟩).1 (by decide) (by simp)
  · exact (((option_init_classification "-v" []
      ⟨[], [], []⟩ ⟨["-v"], [], ["-"]⟩).2 rfl).1 (by decide)).1
  · exact (((option_init_classification "--verbose" []
      ⟨[], [], []⟩ ⟨[], ["--verbose"], ["-", "--"]⟩).2 rfl).2 (by decide)).1
